import Mathlib

/-!
# Verification of the willow digital-logic simulation core

A shallow embedding of the simulation core (bit strings, buses, the
bidirectional splitter, memories, the Extend element, the D latch and the
scheduler's resolve loop) together with theorems settling the specification's
claims about it.

A `BitString` of width `W` is modelled as a `List Bool` of length `W`, stored
big-endian exactly as the source stores its character string: index 0 is the
most significant bit, matching the JavaScript string representation that the
source manipulates with `substring` and concatenation.
-/

namespace Willow

/-- Modelled from the spec (BitString.ts is not part of the given sources):
the unsigned interpretation of a big-endian bit vector, i.e. `toUnsigned()`. -/
def bsToNat (b : List Bool) : Nat :=
  b.foldl (fun acc x => 2 * acc + x.toNat) 0

/-- Modelled from the spec: encode `n` as a big-endian bit vector of exactly
`w` bits (extra high bits of `n` are lost, i.e. the value wraps at width). -/
def bsOfNat : Nat → Nat → List Bool
  | 0, _ => []
  | w + 1, n => bsOfNat w (n / 2) ++ [decide (n % 2 = 1)]

/-- Modelled from the spec: `BitString.not()`, bitwise complement,
width-preserving. -/
def bsNot (b : List Bool) : List Bool :=
  b.map (fun x => !x)

/-- Modelled from the spec: `BitString.low(n)`, n zero bits. -/
def bsLow (n : Nat) : List Bool :=
  List.replicate n false

/-- Modelled from the spec: `BitString.high(n)`, n one bits. -/
def bsHigh (n : Nat) : List Bool :=
  List.replicate n true

/-- Modelled from the spec: the value-level core of `BitString.add`, which
wraps at the width of the left operand. -/
def bsAddVal (a b : List Bool) : List Bool :=
  bsOfNat a.length (bsToNat a + bsToNat b)

/-- Modelled from the spec: `BitString.add` fails on mismatched widths and
otherwise wraps at the common width. -/
def bsAdd (a b : List Bool) : Except String (List Bool) :=
  if a.length ≠ b.length then .error "BitString width mismatch"
  else .ok (bsAddVal a b)

/-- Modelled from the spec: `twosCompliment() = not()` then `add(1)` at the
original width. The `add` width check always passes because `not` and the
width-w encoding of 1 both have the original width. -/
def bsTwosCompliment (b : List Bool) : List Bool :=
  bsAddVal (bsNot b) (bsOfNat b.length 1)

/-- JavaScript `String.substring(start, end)` on the big-endian bit string:
the bits at string indices `[start, end)`, MSB-first. -/
def bsSubstring (b : List Bool) (start stop : Nat) : List Bool :=
  (b.drop start).take (stop - start)

/-- Modelled from the spec (BitString.ts is not part of the given sources):
`truncate` drops extra bits from the most significant end. -/
def bsTruncate (b : List Bool) (n : Nat) : List Bool :=
  b.drop (b.length - n)

/-- Modelled from the spec: `pad` left-pads with zero bits up to width `n`. -/
def bsPad (b : List Bool) (n : Nat) : List Bool :=
  List.replicate (n - b.length) false ++ b

/-- Modelled from the spec (CircuitBus.ts is not part of the given sources):
a bus carries an optional bit value of a fixed declared width and remembers
the integer timestamp of its most recent change, `-1` when unset. -/
structure CircuitBus where
  width : Nat
  value : Option (List Bool)
  lastUpdate : Int
deriving DecidableEq, Repr

/-- Modelled from the spec: `set_value` writes the value and stamps
`last_update` with the given timestamp. -/
def CircuitBus.setValue (b : CircuitBus) (v : Option (List Bool)) (t : Int) : CircuitBus :=
  { b with value := v, lastUpdate := t }

/-- The direction of the splitter's most recent propagation
(`Splitter.#lastOp`, which the source stores as a string). -/
inductive SplitterOp
  | propOut
  | propIn
deriving DecidableEq, Repr

/-- `Splitter` (src/CircuitElement/Splitter.ts), contiguous-slice mode.
`wide` is the single bus the source calls `input` and `narrow` are the buses
it calls `outputs` (`super.getOutputs().slice(1)`); the optional
non-contiguous `bitMappings` mode is not exercised by any claim and is not
modelled, so every embedded splitter has `bitMappings === undefined`. -/
structure Splitter where
  split : List Nat
  wide : CircuitBus
  narrow : List CircuitBus
  prevInput : Option (List Bool)
  prevOutputs : Option (List (Option (List Bool)))
  lastOp : Option SplitterOp
deriving DecidableEq, Repr

/-- `Splitter.#nullOutputs`: true when any narrow value is null. -/
def nullOutputs (a : List (Option (List Bool))) : Bool :=
  a.any (fun x => x.isNone)

/-- `Splitter.#bitStringsEqual`: length check followed by a pointwise
same-or-both-null-or-`equals` comparison. -/
def bitStringsEqual (a b : List (Option (List Bool))) : Bool :=
  a.length == b.length && (a.zip b).all (fun p => p.1 == p.2)

/-- `Splitter.#earliestOutput`: a running minimum over the narrow buses' last
update stamps whose accumulator `o` is initialized to `-1`, exactly as the
source initializes it. -/
def earliestOutput (narrow : List CircuitBus) : Int :=
  narrow.foldl (fun o x => min o x.lastUpdate) (-1)

/-- `Splitter.#areConsistent` in contiguous mode: the wide value equals the
join of the narrow values in natural index order (JavaScript `join` renders a
null element as the empty string). -/
def areConsistent (input : List Bool) (outputs : List (Option (List Bool))) : Bool :=
  input == (outputs.map (fun o => o.getD [])).flatten

/-- The slice-assignment loop of `Splitter.#propOut` (contiguous mode). The
source iterates `s` upward while writing bus `i = N-1-s` with the slice of
width `split[i]` at the running offset; that traversal visits `split.reverse`
and `narrow.reverse` in order, so it is expressed as a recursion over the
reversed lists whose result `Splitter.propOut` reverses back into bus
order. -/
def propOutRev (input : List Bool) (t : Int) : Nat → List Nat → List CircuitBus → List CircuitBus
  | _, _, [] => []
  | _, [], bs => bs
  | off, w :: ws, b :: bs =>
      b.setValue (some (bsSubstring input off (off + w))) t
        :: propOutRev input t (off + w) ws bs

/-- `Splitter.#propOut` (contiguous mode): split the wide value into the
narrow buses and record `lastOp = propOut`. -/
def Splitter.propOut (sp : Splitter) (input : List Bool) (t : Int) : Splitter :=
  { sp with
    narrow := (propOutRev input t 0 sp.split.reverse sp.narrow.reverse).reverse
    lastOp := some .propOut }

/-- The concatenation loop of `Splitter.#propIn` (contiguous mode): visiting
`i = N-1` down to `0`, fail if a narrow bus's declared width differs from its
split entry, otherwise append its value (zeros of the bus width when the
value is null). -/
def propInRev : List Nat → List CircuitBus → Except String (List Bool)
  | [], _ => .ok []
  | _ :: _, [] => .ok []
  | w :: ws, b :: bs =>
      if b.width ≠ w then .error "SplitterElement bus width error"
      else do
        let rest ← propInRev ws bs
        .ok (b.value.getD (bsLow b.width) ++ rest)

/-- `Splitter.#propIn` (contiguous mode): combine the narrow buses into the
wide bus and record `lastOp = propIn`. -/
def Splitter.propIn (sp : Splitter) (t : Int) : Except String Splitter :=
  do
    let v ← propInRev sp.split.reverse sp.narrow.reverse
    .ok { sp with wide := sp.wide.setValue (some v) t, lastOp := some .propIn }

/-- The `[this.#prevInput, this.#prevOutputs] = this.#getValues()` cache
update the source performs after a successful propagation. -/
def Splitter.cachePrev (sp : Splitter) : Splitter :=
  { sp with
    prevInput := sp.wide.value
    prevOutputs := some (sp.narrow.map (fun o => o.value)) }

/-- `Splitter.resolve` (contiguous mode), with thrown `Error`s modelled as
`Except.error`. `t` is the scheduler timestamp a propagation would stamp on
the buses it writes. -/
def Splitter.resolve (sp : Splitter) (t : Int) : Except String Splitter :=
  let input := sp.wide.value
  let outputs := sp.narrow.map (fun o => o.value)
  match input with
  | none =>
      if !(nullOutputs outputs) then (sp.propIn t).map Splitter.cachePrev
      else .ok sp
  | some inv =>
      if nullOutputs outputs then .ok ((sp.propOut inv t).cachePrev)
      else if areConsistent inv outputs then .ok sp.cachePrev
      else
        let inputUpdate := sp.wide.lastUpdate
        let outputUpdate := earliestOutput sp.narrow
        let inputChanged : Bool := sp.prevInput.isNone || !(sp.prevInput == some inv)
        let outputsChanged : Bool :=
          match sp.prevOutputs with
          | none => true
          | some p => !(bitStringsEqual p outputs)
        if inputChanged && decide (inputUpdate < outputUpdate) then
          .ok ((sp.propOut inv t).cachePrev)
        else if outputsChanged && decide (outputUpdate < inputUpdate) then
          (sp.propIn t).map Splitter.cachePrev
        else if inputUpdate == outputUpdate then
          .error "Splitter contention"
        else if inputUpdate > outputUpdate then
          .ok ((sp.propOut inv t).cachePrev)
        else
          (sp.propIn t).map Splitter.cachePrev

/-- Consecutive slices of a bit vector cut by the given list of widths. -/
def sliceWidths : List Nat → List Bool → List (List Bool)
  | [], _ => []
  | w :: ws, bs => bs.take w :: sliceWidths ws (bs.drop w)

/-- The propOut algorithm exactly as the spec's words in section 4.6 state
it: "iterate i = N-1 down to 0, offset 0 to sum(split); set
narrow[N-1-i] := wide[offset : offset+split[i]]". Unrolling that iteration,
the port of index `s = N-1-i` (ascending as the loop runs) receives the slice
of width `split[N-1-s]` at the running offset, so the algorithm assigns the
consecutive slices of the wide value, cut by the widths `split.reverse`, to
ports 0, 1, 2, ... in that order. Defined from the spec's words, for
comparison with the source's `Splitter.propOut`. -/
def specPropOutVals (split : List Nat) (input : List Bool) : List (List Bool) :=
  sliceWidths split.reverse input

/-- `Memory` (the abstract base class): a word size and an array of words. -/
structure Memory where
  wordSize : Nat
  data : List (List Bool)
deriving DecidableEq, Repr

/-- `Memory.write`: each word is truncated then padded to the word size and
the result is spliced over the existing data in place. JavaScript
`Array.splice` clamps the start index to the array length, hence the
`min`. -/
def Memory.write (m : Memory) (address : Nat) (value : List (List Bool)) : Memory :=
  let words := value.map (fun v => bsPad (bsTruncate v m.wordSize) m.wordSize)
  let a := min address m.data.length
  { m with data := m.data.take a ++ words ++ m.data.drop (a + words.length) }

/-- The word-extraction loop of `Memory.initialize`: successive slices of
`wordSize` bits taken from the MSB end of the binary string. -/
def bsChunks (w : Nat) (bits : List Bool) : List (List Bool) :=
  if w = 0 then []
  else if bits.isEmpty then []
  else bits.take w :: bsChunks w (bits.drop w)
termination_by bits.length
decreasing_by
  rename_i hw hbits
  simp only [List.isEmpty_iff] at hbits
  have hlen : 0 < bits.length := List.length_pos.mpr hbits
  simp only [List.length_drop]
  omega

/-- `Memory.initialize`: fails unless the value's width is a multiple of the
word size (in JavaScript a zero word size makes `width % wordSize` NaN, which
always differs from 0, hence the first disjunct), then overwrites the data
array word by word from the MSB end, extending it if the value holds more
words than the current capacity. -/
def Memory.initialize (m : Memory) (value : List Bool) : Except String Memory :=
  if m.wordSize = 0 ∨ value.length % m.wordSize ≠ 0 then
    .error "Memory initialization string must be a multiple of the word size"
  else
    let ws := bsChunks m.wordSize value
    .ok { m with data := ws ++ m.data.drop ws.length }

/-- `Extend` (the JLS "make N copies" element): its single input bus and
single output bus. -/
structure Extend where
  input : CircuitBus
  output : CircuitBus
deriving DecidableEq, Repr

/-- The `Extend` constructor, which throws unless the input bus has width
exactly 1. -/
def Extend.make (input output : CircuitBus) : Except String Extend :=
  if input.width ≠ 1 then .error "Extend input must have width 1."
  else .ok { input := input, output := output }

/-- `Extend.resolve`: a null input leaves the output untouched; an input
reading as unsigned 0 drives all zeros, as unsigned 1 drives all ones, and
anything else throws. -/
def Extend.resolve (e : Extend) (t : Int) : Except String Extend :=
  match e.input.value with
  | none => .ok e
  | some v =>
      let value := bsToNat v
      if value = 0 then
        .ok { e with output := e.output.setValue (some (bsLow e.output.width)) t }
      else if value = 1 then
        .ok { e with output := e.output.setValue (some (bsHigh e.output.width)) t }
      else .error "Unexpected input to Extent"

/-- Modelled from the spec (DLatch.ts is not part of the given sources): the
D latch's buses plus the previous clock value every sequential element
records on each resolve. -/
structure DLatch where
  clock : CircuitBus
  d : CircuitBus
  q : CircuitBus
  qInv : CircuitBus
  prevClock : Option (List Bool)
deriving DecidableEq, Repr

/-- Modelled from the spec: section 4.4 records that "the source's behavior
drives Q to not-D on rising edge" rather than being transparent, and the
repository's own DLatch test (tests/CircuitElement/DLatch.test.ts,
"onClockRise sets q and qInv to not(d)") additionally pins the complementary
output to not-D as well. -/
def DLatch.onClockRise (l : DLatch) (t : Int) : DLatch :=
  match l.d.value with
  | some dv =>
      { l with
        q := l.q.setValue (some (bsNot dv)) t
        qInv := l.qInv.setValue (some (bsNot dv)) t }
  | none => l

/-- Modelled from the spec: a clocked element's `resolve` records the
previous clock value and invokes `onClockRise` on a low-to-high
transition. -/
def DLatch.resolve (l : DLatch) (t : Int) : DLatch :=
  let c := l.clock.value
  let l2 :=
    if l.prevClock = some [false] ∧ c = some [true] then l.onClockRise t else l
  { l2 with prevClock := c }

/-- The scheduler's step budget (spec section 4.8: "if it exceeds 1,000,000,
fail with STEP_LIMIT_EXCEEDED"). -/
def STEP_LIMIT : Nat := 1000000

/-- The two ways `Circuit.run`'s resolve loop can end: a stable circuit
(empty queue) or the fatal step-limit failure. -/
inductive RunOutcome (σ : Type)
  | ok (s : σ)
  | stepLimitExceeded
deriving DecidableEq, Repr

/-- Modelled from the spec (Circuit.ts is not part of the given sources):
the resolve loop of section 4.8 over an abstract scheduler state `σ`. While
the queue is non-empty it pops and resolves the next element (`stepFn`),
increments the step counter, and fails once the counter exceeds
`STEP_LIMIT`. -/
def resolveLoop {σ : Type} (queueEmpty : σ → Bool) (stepFn : σ → σ)
    (s : σ) (steps : Nat) : RunOutcome σ :=
  if queueEmpty s then .ok s
  else
    let s2 := stepFn s
    if steps + 1 > STEP_LIMIT then .stepLimitExceeded
    else resolveLoop queueEmpty stepFn s2 (steps + 1)
termination_by STEP_LIMIT + 1 - steps
decreasing_by omega

/-- A ring oscillator: a NOT gate whose output feeds its own input. Each
processed event flips the bus value and the value change re-enqueues the
gate, so the queue is never empty. -/
def ringOscillatorStep (v : Bool) : Bool := !v

/-- The ring oscillator's queue never empties: stability is never reached. -/
def ringOscillatorQueueEmpty (_ : Bool) : Bool := false

/-- Modelled from the spec (JLSRAM.ts is not part of the given sources): a
RAM wrapping the abstract `Memory` with address, data-in, output, output
enable, chip select and write enable buses, as constructed by the
repository's JLSRAM test. -/
structure JLSRAM where
  mem : Memory
  address : CircuitBus
  dataIn : CircuitBus
  output : CircuitBus
  outputEnable : CircuitBus
  chipSelect : CircuitBus
  writeEnable : CircuitBus
deriving DecidableEq, Repr

/-- Modelled from the spec: JLSRAM's `resolve`. "Writes occur when CS is low
and WE is low and address is in range; out-of-range is a warning, not a
fault" (the write is dropped and resolve continues normally), and the output
is null unless CS is low and OE is low and the address is in range. -/
def JLSRAM.resolve (r : JLSRAM) (t : Int) : JLSRAM :=
  let low1 := some (bsLow 1)
  let addrIdx := r.address.value.map bsToNat
  let r1 :=
    match addrIdx, r.dataIn.value with
    | some idx, some dv =>
        if r.chipSelect.value = low1 ∧ r.writeEnable.value = low1
            ∧ idx < r.mem.data.length then
          { r with mem := r.mem.write idx [dv] }
        else r
    | _, _ => r
  let outVal :=
    match addrIdx with
    | some idx =>
        if r1.chipSelect.value = low1 ∧ r1.outputEnable.value = low1
            ∧ idx < r1.mem.data.length then
          r1.mem.data.get? idx
        else none
    | none => none
  { r1 with output := r1.output.setValue outVal t }

/-- A splitter state in which the wide side and the narrow side hold
disagreeing values that were all stamped at the same timestamp 4: exactly
the situation the spec calls splitter contention. -/
def spC1 : Splitter :=
  { split := [2, 2]
    wide := ⟨4, some [false, false, false, false], 4⟩
    narrow := [⟨2, some [true, true], 4⟩, ⟨2, some [true, false], 4⟩]
    prevInput := none
    prevOutputs := none
    lastOp := none }

/-- A fresh 4-bit splitter with split [2,2] carrying the wide value "1011",
as in the repository's Splitter tests. -/
def spEx : Splitter :=
  { split := [2, 2]
    wide := ⟨4, some [true, false, true, true], 1⟩
    narrow := [⟨2, none, -1⟩, ⟨2, none, -1⟩]
    prevInput := none
    prevOutputs := none
    lastOp := none }

/-- A D latch about to see a rising clock edge with D high, as driven by the
repository's DLatch test. -/
def dlatchEx : DLatch :=
  { clock := ⟨1, some [true], 2⟩
    d := ⟨1, some [true], 1⟩
    q := ⟨1, none, -1⟩
    qInv := ⟨1, none, -1⟩
    prevClock := some [false] }

/-- A 4-word, 2-bit-per-word memory, as in the repository's Memory tests. -/
def memEx : Memory :=
  { wordSize := 2
    data := [bsLow 2, bsLow 2, bsLow 2, bsLow 2] }

/-- A 2-word RAM receiving a write request at the out-of-range address 2
with chip select and write enable both low, as in the repository's JLSRAM
out-of-range write test. -/
def ramEx : JLSRAM :=
  { mem := { wordSize := 2, data := [[false, false], [false, true]] }
    address := ⟨3, some [false, true, false], 1⟩
    dataIn := ⟨2, some [true, true], 1⟩
    output := ⟨2, none, -1⟩
    outputEnable := ⟨1, none, -1⟩
    chipSelect := ⟨1, some (bsLow 1), 1⟩
    writeEnable := ⟨1, some (bsLow 1), 1⟩ }

/-- A 1-bit input bus holding a high value, as in the repository's Extend
test. -/
def extInp : CircuitBus := ⟨1, some [true], 0⟩

/-- A 6-bit output bus, as in the repository's Extend test. -/
def extOut : CircuitBus := ⟨6, none, -1⟩

theorem bsOfNat_length (w n : Nat) : (bsOfNat w n).length = w := by
  induction w generalizing n with
  | zero => rfl
  | succ w ih => simp [bsOfNat, ih]

theorem bsToNat_append_singleton (xs : List Bool) (x : Bool) :
    bsToNat (xs ++ [x]) = 2 * bsToNat xs + x.toNat := by
  simp [bsToNat]

theorem bsToNat_lt (b : List Bool) : bsToNat b < 2 ^ b.length := by
  induction b using List.reverseRecOn with
  | nil => simp [bsToNat]
  | append_singleton xs x ih =>
      rw [bsToNat_append_singleton]
      have hx : x.toNat ≤ 1 := Bool.toNat_le x
      simp only [List.length_append, List.length_singleton, pow_succ]
      omega

theorem bsToNat_bsOfNat (w n : Nat) : bsToNat (bsOfNat w n) = n % 2 ^ w := by
  induction w generalizing n with
  | zero => simp [bsOfNat, bsToNat, Nat.mod_one]
  | succ w ih =>
      rw [bsOfNat, bsToNat_append_singleton, ih]
      have hd : (decide (n % 2 = 1)).toNat = n % 2 := by
        rcases Nat.mod_two_eq_zero_or_one n with h | h <;> simp [h]
      rw [hd, pow_succ, mul_comm (2 ^ w) 2, Nat.mod_mul]
      omega

theorem bsOfNat_bsToNat (b : List Bool) : bsOfNat b.length (bsToNat b) = b := by
  induction b using List.reverseRecOn with
  | nil => rfl
  | append_singleton xs x ih =>
      rw [bsToNat_append_singleton]
      simp only [List.length_append, List.length_singleton]
      rw [bsOfNat]
      have hdiv : (2 * bsToNat xs + x.toNat) / 2 = bsToNat xs := by
        cases x <;> simp only [Bool.toNat_false, Bool.toNat_true] <;> omega
      have hmod : decide ((2 * bsToNat xs + x.toNat) % 2 = 1) = x := by
        rw [Nat.mul_add_mod]; cases x <;> rfl
      rw [hdiv, hmod, ih]

theorem bsNot_length (b : List Bool) : (bsNot b).length = b.length := by
  simp [bsNot]

theorem bsToNat_bsNot (b : List Bool) :
    bsToNat (bsNot b) = 2 ^ b.length - 1 - bsToNat b := by
  induction b using List.reverseRecOn with
  | nil => simp [bsNot, bsToNat]
  | append_singleton xs x ih =>
      have hx : bsNot (xs ++ [x]) = bsNot xs ++ [!x] := by simp [bsNot]
      rw [hx, bsToNat_append_singleton, bsToNat_append_singleton, ih]
      have hv := bsToNat_lt xs
      simp only [List.length_append, List.length_singleton, pow_succ]
      cases x <;>
        simp only [Bool.not_false, Bool.not_true, Bool.toNat_false, Bool.toNat_true] <;>
        omega

theorem bsTwosCompliment_length (b : List Bool) :
    (bsTwosCompliment b).length = b.length := by
  simp [bsTwosCompliment, bsAddVal, bsOfNat_length, bsNot_length]

theorem bsToNat_bsTwosCompliment (b : List Bool) :
    bsToNat (bsTwosCompliment b) = (2 ^ b.length - bsToNat b) % 2 ^ b.length := by
  unfold bsTwosCompliment bsAddVal
  rw [bsToNat_bsOfNat, bsToNat_bsOfNat, bsToNat_bsNot, bsNot_length]
  have hv := bsToNat_lt b
  rcases Nat.eq_zero_or_pos b.length with h0 | hp
  · rw [h0] at hv ⊢
    simp at hv
    simp [hv]
  · have h2 : (2 : Nat) ≤ 2 ^ b.length := by
      calc (2 : Nat) = 2 ^ 1 := (pow_one 2).symm
      _ ≤ 2 ^ b.length := Nat.pow_le_pow_right (by omega) hp
    have h1 : 1 % 2 ^ b.length = 1 := Nat.mod_eq_of_lt (by omega)
    rw [h1]
    congr 1
    omega

theorem bsEq_of_toNat_eq {a b : List Bool} (hl : a.length = b.length)
    (hv : bsToNat a = bsToNat b) : a = b := by
  rw [← bsOfNat_bsToNat a, ← bsOfNat_bsToNat b, hl, hv]

theorem bsSubstring_add (input : List Bool) (off w : Nat) :
    bsSubstring input off (off + w) = (input.drop off).take w := by
  simp [bsSubstring]

theorem CircuitBus.width_setValue (b : CircuitBus) (v : Option (List Bool)) (t : Int) :
    (b.setValue v t).width = b.width := rfl

theorem propInRev_propOutRev (input : List Bool) (t : Int) {ws : List Nat}
    {bs : List CircuitBus} (h : List.Forall₂ (fun w b => b.width = w) ws bs) :
    ∀ off : Nat,
      propInRev ws (propOutRev input t off ws bs) =
        .ok ((input.drop off).take ws.sum) := by
  induction h with
  | nil =>
      intro off
      simp [propOutRev, propInRev]
  | cons hwb htail ih =>
      intro off
      rename_i w b ws bs
      rw [propOutRev, propInRev]
      rw [if_neg (show ¬((b.setValue (some (bsSubstring input off (off + w))) t).width ≠ w) by
        simp [CircuitBus.setValue, hwb])]
      rw [ih (off + w), bsSubstring_add, List.sum_cons, List.take_add, List.drop_drop]
      rfl

theorem propOutRev_map_value (input : List Bool) (t : Int) :
    ∀ (ws : List Nat) (bs : List CircuitBus) (off : Nat), ws.length = bs.length →
      (propOutRev input t off ws bs).map (fun b => b.value) =
        (sliceWidths ws (input.drop off)).map some := by
  intro ws
  induction ws with
  | nil =>
      intro bs off h
      have : bs = [] := List.length_eq_zero.mp h.symm
      subst this
      simp [propOutRev, sliceWidths]
  | cons w ws ih =>
      intro bs off h
      match bs with
      | [] => simp at h
      | b :: bs =>
          rw [propOutRev, sliceWidths]
          simp only [List.map_cons, List.length_cons] at h ⊢
          rw [bsSubstring_add, ih bs (off + w) (by omega), List.drop_drop]
          rfl

/-!
## Claim theorems
-/

/-- C9: for every BitValue `B`, `B.not().not()` equals `B`, and
`B.twosCompliment().twosCompliment()` equals `B` (exactly, which in
particular gives equality under width-W modular arithmetic), where
`twosCompliment()` is `not()` followed by `add(1)` at the original width. -/
theorem bitstring_not_and_twosCompliment_involutive (b : List Bool) :
    bsNot (bsNot b) = b ∧ bsTwosCompliment (bsTwosCompliment b) = b := by
  constructor
  · simp only [bsNot, List.map_map]
    have h : ((fun x => !x) ∘ fun x : Bool => !x) = id := by
      funext x
      simp
    rw [h, List.map_id]
  · apply bsEq_of_toNat_eq
    · rw [bsTwosCompliment_length, bsTwosCompliment_length]
    · rw [bsToNat_bsTwosCompliment, bsTwosCompliment_length, bsToNat_bsTwosCompliment]
      have hv := bsToNat_lt b
      rcases Nat.eq_zero_or_pos (bsToNat b) with h0 | hpos
      · rw [h0, Nat.sub_zero, Nat.mod_self, Nat.sub_zero, Nat.mod_self]
      · have h1 : (2 ^ b.length - bsToNat b) % 2 ^ b.length = 2 ^ b.length - bsToNat b :=
          Nat.mod_eq_of_lt (by omega)
        rw [h1]
        have h2 : 2 ^ b.length - (2 ^ b.length - bsToNat b) = bsToNat b := by omega
        rw [h2, Nat.mod_eq_of_lt hv]

/-- C2: for every contiguous-mode splitter whose narrow bus widths match its
split widths and whose split widths sum to the width of the wide value,
propOut followed immediately by propIn yields the original wide value
again. -/
theorem splitter_propOut_propIn_roundtrip (sp : Splitter) (input : List Bool)
    (t t2 : Int) (hw : List.Forall₂ (fun w b => b.width = w) sp.split sp.narrow)
    (hsum : sp.split.sum = input.length) :
    ∃ sp2, (sp.propOut input t).propIn t2 = .ok sp2 ∧
      sp2.wide.value = some input := by
  have hrev : List.Forall₂ (fun w b => b.width = w) sp.split.reverse sp.narrow.reverse :=
    List.forall₂_reverse_iff.mpr hw
  refine ⟨{ sp with
      narrow := (propOutRev input t 0 sp.split.reverse sp.narrow.reverse).reverse
      wide := sp.wide.setValue (some input) t2
      lastOp := some .propIn }, ?_, rfl⟩
  unfold Splitter.propOut Splitter.propIn
  simp only [List.reverse_reverse]
  rw [propInRev_propOutRev input t hrev 0, List.drop_zero, List.sum_reverse, hsum,
    List.take_length]
  rfl

/-- C2 witness: the round trip at the concrete 4-bit splitter `spEx` with
split [2,2] and wide value "1011". -/
theorem splitter_propOut_propIn_roundtrip_witness :
    ∃ sp2, (spEx.propOut [true, false, true, true] 1).propIn 2 = .ok sp2 ∧
      sp2.wide.value = some [true, false, true, true] :=
  splitter_propOut_propIn_roundtrip spEx [true, false, true, true] 1 2
    (by decide) (by decide)

/-- C3: in contiguous mode the narrow ports are stored in reverse of the
natural left-to-right slice order: slice 0 of the wide value, its most
significant slice (of width `split[N-1]`), is assigned to narrow port N-1.
Concretely, propOut of the 4-bit value "1011" with split [2,2] writes
narrow[0] = "11" and narrow[1] = "10", and propIn on those narrow values
restores the wide value "1011". -/
theorem splitter_reversed_port_order :
    (∀ (sp : Splitter) (input : List Bool) (t : Int) (w : Nat) (b : CircuitBus),
        sp.split.getLast? = some w → sp.narrow.getLast? = some b →
        ((sp.propOut input t).narrow).getLast? =
          some (b.setValue (some (input.take w)) t)) ∧
    ((spEx.propOut [true, false, true, true] 1).narrow.map (fun b => b.value) =
        [some [true, true], some [true, false]] ∧
      ∃ sp2, (spEx.propOut [true, false, true, true] 1).propIn 2 = .ok sp2 ∧
        sp2.wide.value = some [true, false, true, true]) := by
  constructor
  · intro sp input t w b hw hb
    have hws : sp.split.reverse.head? = some w := by
      rw [List.head?_reverse]
      exact hw
    have hbs : sp.narrow.reverse.head? = some b := by
      rw [List.head?_reverse]
      exact hb
    unfold Splitter.propOut
    simp only
    rw [List.getLast?_reverse]
    cases hsr : sp.split.reverse with
    | nil =>
        rw [hsr] at hws
        simp at hws
    | cons w2 ws =>
        cases hnr : sp.narrow.reverse with
        | nil =>
            rw [hnr] at hbs
            simp at hbs
        | cons b2 bs =>
            rw [hsr] at hws
            rw [hnr] at hbs
            simp only [List.head?_cons, Option.some.injEq] at hws hbs
            subst hws
            subst hbs
            rw [propOutRev]
            simp only [List.head?_cons, Option.some.injEq]
            rw [bsSubstring_add]
            rfl
  · exact ⟨rfl, ⟨_, rfl, rfl⟩⟩

/-- C3 witness: the reversed-port-order statement applied to the concrete
splitter `spEx`: its last narrow port receives slice "10" of "1011". -/
theorem splitter_reversed_port_order_witness :
    ((spEx.propOut [true, false, true, true] 1).narrow).getLast? =
      some ((⟨2, none, -1⟩ : CircuitBus).setValue
        (some ([true, false, true, true].take 2)) 1) :=
  splitter_reversed_port_order.1 spEx [true, false, true, true] 1 2
    ⟨2, none, -1⟩ rfl rfl

/-- C4: the claim is false on the code. `specPropOutVals`, the propOut
algorithm exactly as the spec's words state it (narrow[N-1-i] :=
wide[offset : offset+split[i]], so the slice at offset 0 goes to narrow port
index 0), disagrees with the source's propOut at the wide value "1011" with
split [2,2]: the spec's algorithm puts "10" on port 0, while the source puts
"11" there. -/
theorem propOut_spec_algorithm_counterexample :
    specPropOutVals [2, 2] [true, false, true, true] = [[true, false], [true, true]] ∧
    (spEx.propOut [true, false, true, true] 1).narrow.map (fun b => b.value) =
      [some [true, true], some [true, false]] ∧
    (spEx.propOut [true, false, true, true] 1).narrow.map (fun b => b.value) ≠
      (specPropOutVals [2, 2] [true, false, true, true]).map some := by
  refine ⟨rfl, rfl, ?_⟩
  decide

/-- C4 (amended): the source's propOut performs the spec's slice assignment
with the port order reversed: iterating with the offset running from 0 up to
sum(split) it writes narrow[i] := wide[offset : offset+split[i]] for
i = N-1 down to 0, so the narrow port values are exactly the reverse of the
port values produced by the algorithm as the spec words it, and the first
slice, at offset 0, is written to narrow port index N-1, not 0. -/
theorem propOut_is_reverse_of_spec_algorithm (sp : Splitter) (input : List Bool)
    (t : Int) (h : sp.split.length = sp.narrow.length) :
    (sp.propOut input t).narrow.map (fun b => b.value) =
      ((specPropOutVals sp.split input).map some).reverse := by
  unfold Splitter.propOut specPropOutVals
  simp only
  rw [List.map_reverse, propOutRev_map_value input t _ _ 0 (by simp [h]),
    List.drop_zero]

/-- C4 witness: the amended statement applied to the concrete splitter
`spEx` and wide value "1011". -/
theorem propOut_is_reverse_of_spec_algorithm_witness :
    (spEx.propOut [true, false, true, true] 1).narrow.map (fun b => b.value) =
      ((specPropOutVals spEx.split [true, false, true, true]).map some).reverse :=
  propOut_is_reverse_of_spec_algorithm spEx [true, false, true, true] 1 (by decide)

/-- C1: at the state `spC1`, the wide bus and both narrow buses hold
non-null, mutually inconsistent values all stamped at timestamp 4, so
`t_wide = 4` equals `t_narrow = min(4, 4) = 4` and the claim (and spec
section 4.6) requires the fatal splitter-contention error. The source
instead performs propIn, overwriting the wide bus from the narrow side:
`#earliestOutput` initializes its running minimum to -1, so it returns -1
regardless of the narrow buses' stamps and `resolve` never compares `t_wide`
with the true narrow minimum. -/
theorem splitter_equal_timestamps_propIn_not_contention :
    spC1.resolve 5 =
      .ok { split := [2, 2]
            wide := ⟨4, some [true, false, true, true], 5⟩
            narrow := [⟨2, some [true, true], 4⟩, ⟨2, some [true, false], 4⟩]
            prevInput := some [true, false, true, true]
            prevOutputs := some [some [true, true], some [true, false]]
            lastOp := some .propIn }
      ∧ earliestOutput spC1.narrow = -1 := by
  constructor <;> rfl

/-- C5: the claim is false on the code. At the state `dlatchEx` the clock is
rising with D = 1, yet resolve drives Q to 0, not to D: as the spec itself
records, the source's D latch computes Q := not(D) on the rising edge
rather than behaving as a transparent latch. -/
theorem dlatch_not_transparent_counterexample :
    (dlatchEx.resolve 3).q.value = some [false] ∧
    (dlatchEx.resolve 3).q.value ≠ dlatchEx.d.value := by
  constructor
  · rfl
  · decide

/-- C5 (amended): on a low-to-high clock transition with D non-null, the D
latch's resolve invokes onClockRise, which drives Q to not(D) and the
complementary output likewise to not(D); Q does not follow D while the
clock is high. -/
theorem dlatch_rise_drives_not_d (l : DLatch) (t : Int) (dv : List Bool)
    (hd : l.d.value = some dv) (hprev : l.prevClock = some [false])
    (hclk : l.clock.value = some [true]) :
    (l.resolve t).q.value = some (bsNot dv) ∧
    (l.resolve t).qInv.value = some (bsNot dv) := by
  unfold DLatch.resolve DLatch.onClockRise
  simp only [hprev, hclk, hd, and_self, if_true, if_pos]
  constructor <;> rfl

/-- C5 witness: the amended statement at the concrete rising-edge state
`dlatchEx` with D = 1. -/
theorem dlatch_rise_drives_not_d_witness :
    (dlatchEx.resolve 3).q.value = some (bsNot [true]) ∧
    (dlatchEx.resolve 3).qInv.value = some (bsNot [true]) :=
  dlatch_rise_drives_not_d dlatchEx 3 [true] rfl rfl rfl

/-- C6: for every scheduler state whose queue never empties (its propagation
never stabilizes), the resolve loop terminates by failing with the
step-limit error once the step counter exceeds `STEP_LIMIT` = 1,000,000; the
loop never runs forever. -/
theorem run_step_limit_exceeded {σ : Type} (queueEmpty : σ → Bool)
    (stepFn : σ → σ) (s : σ) (steps : Nat)
    (hne : ∀ s2, queueEmpty s2 = false) (hsteps : steps ≤ STEP_LIMIT) :
    resolveLoop queueEmpty stepFn s steps = .stepLimitExceeded := by
  have key : ∀ (n steps2 : Nat) (s2 : σ), STEP_LIMIT + 1 - steps2 ≤ n →
      steps2 ≤ STEP_LIMIT →
      resolveLoop queueEmpty stepFn s2 steps2 = .stepLimitExceeded := by
    intro n
    induction n with
    | zero =>
        intro steps2 s2 hn hle
        omega
    | succ n ih =>
        intro steps2 s2 hn hle
        rw [resolveLoop, hne s2]
        simp only [Bool.false_eq_true, if_false]
        by_cases hstep : steps2 + 1 > STEP_LIMIT
        · rw [if_pos hstep]
        · rw [if_neg hstep]
          exact ih (steps2 + 1) (stepFn s2) (by omega) (by omega)
  exact key (STEP_LIMIT + 1) steps s (by omega) hsteps

/-- C6 witness: the ring oscillator (a NOT gate feeding its own input) makes
`run` fail with the step-limit error. -/
theorem run_step_limit_exceeded_witness :
    resolveLoop ringOscillatorQueueEmpty ringOscillatorStep false 0 =
      .stepLimitExceeded :=
  run_step_limit_exceeded ringOscillatorQueueEmpty ringOscillatorStep false 0
    (fun _ => rfl) (Nat.zero_le _)

theorem bsChunks_get? (W : Nat) (hW : 0 < W) :
    ∀ (i : Nat) (bits : List Bool), (i + 1) * W ≤ bits.length →
      (bsChunks W bits).get? i = some ((bits.drop (i * W)).take W) := by
  intro i
  induction i with
  | zero =>
      intro bits h
      have e0 : (0 + 1) * W = W := by ring
      rw [bsChunks, if_neg (by omega),
        if_neg (by rw [List.isEmpty_iff, ← List.length_eq_zero]; omega)]
      simp
  | succ i ih =>
      intro bits h
      have e1 : (i + 1 + 1) * W = (i + 1) * W + W := by ring
      have e2 : (i + 1) * W = i * W + W := by ring
      rw [bsChunks, if_neg (by omega),
        if_neg (by rw [List.isEmpty_iff, ← List.length_eq_zero]; omega)]
      have hrec := ih (bits.drop W) (by simp only [List.length_drop]; omega)
      have e3 : W + i * W = (i + 1) * W := by ring
      rw [List.get?_cons_succ, hrec, List.drop_drop, e3]

/-- C7: `Memory.initialize` raises an error if and only if the width of the
given value is not a multiple of the memory's (positive) word size W, and
otherwise word i of the memory becomes bits [i*W, (i+1)*W) of the value's
MSB-first binary string, for every i below width/W. -/
theorem memory_initialize_msb_words (m : Memory) (value : List Bool)
    (hW : 0 < m.wordSize) :
    (( Memory.initialize m value).isOk ↔ m.wordSize ∣ value.length) ∧
    (∀ m2, Memory.initialize m value = .ok m2 →
      ∀ i, i < value.length / m.wordSize →
        m2.data.get? i =
          some (bsSubstring value (i * m.wordSize) ((i + 1) * m.wordSize))) := by
  constructor
  · unfold Memory.initialize
    by_cases hmod : value.length % m.wordSize = 0
    · rw [if_neg (by omega)]
      simp only [Except.isOk, Except.toBool]
      exact iff_of_true trivial (Nat.dvd_of_mod_eq_zero hmod)
    · rw [if_pos (by omega)]
      simp only [Except.isOk, Except.toBool]
      refine iff_of_false (by simp) ?_
      intro hdvd
      obtain ⟨c, hc⟩ := hdvd
      exact hmod (by rw [hc, Nat.mul_mod_right])
  · intro m2 hok i hi
    unfold Memory.initialize at hok
    by_cases hcond : m.wordSize = 0 ∨ value.length % m.wordSize ≠ 0
    · rw [if_pos hcond] at hok
      exact absurd hok (by simp)
    · rw [if_neg hcond] at hok
      have hm2 : m2 = { m with
          data := bsChunks m.wordSize value ++
            m.data.drop (bsChunks m.wordSize value).length } := by
        cases hok
        rfl
      have hle : (i + 1) * m.wordSize ≤ value.length := by
        have h1 : i + 1 ≤ value.length / m.wordSize := hi
        calc (i + 1) * m.wordSize
            ≤ value.length / m.wordSize * m.wordSize :=
              Nat.mul_le_mul_right _ h1
          _ ≤ value.length := Nat.div_mul_le_self _ _
      have hsome := bsChunks_get? m.wordSize hW i value hle
      have hlen : i < (bsChunks m.wordSize value).length := by
        by_contra hcon
        push_neg at hcon
        rw [List.get?_eq_none.mpr hcon] at hsome
        simp at hsome
      have e3 : (i + 1) * m.wordSize - i * m.wordSize = m.wordSize := by
        have e2 : (i + 1) * m.wordSize = i * m.wordSize + m.wordSize := by ring
        omega
      rw [hm2]
      simp only
      rw [List.get?_append hlen, hsome, bsSubstring, e3]

/-- C7 witness: initializing the 4-word 2-bit memory `memEx` with the 4-bit
value "1010". -/
theorem memory_initialize_msb_words_witness :
    (( Memory.initialize memEx [true, false, true, false]).isOk ↔
        memEx.wordSize ∣ (4 : Nat)) ∧
    (∀ m2, Memory.initialize memEx [true, false, true, false] = .ok m2 →
      ∀ i, i < 4 / memEx.wordSize →
        m2.data.get? i =
          some (bsSubstring [true, false, true, false] (i * memEx.wordSize)
            ((i + 1) * memEx.wordSize))) :=
  memory_initialize_msb_words memEx [true, false, true, false] (by decide)

/-- C8: a RAM write requested at an out-of-range address (at or beyond
capacity) is dropped: the memory contents remain entirely unchanged (in
particular capacity does not grow) and resolve completes normally (no fatal
error is raised); conversely, the memory contents only ever change when chip
select is low, write enable is low, and the address is in range. -/
theorem ram_out_of_range_write_dropped :
    (∀ (r : JLSRAM) (t : Int) (idx : Nat),
        r.address.value.map bsToNat = some idx →
        r.mem.data.length ≤ idx →
        (r.resolve t).mem = r.mem) ∧
    (∀ (r : JLSRAM) (t : Int), (r.resolve t).mem ≠ r.mem →
        r.chipSelect.value = some (bsLow 1) ∧
        r.writeEnable.value = some (bsLow 1) ∧
        ∃ idx, r.address.value.map bsToNat = some idx ∧
          idx < r.mem.data.length) := by
  constructor
  · intro r t idx haddr hout
    unfold JLSRAM.resolve
    dsimp only
    rw [haddr]
    split
    · rename_i idx2 dv heq1 heq2
      rw [if_neg (by
        intro hc
        have h3 := hc.2.2
        injection heq1 with hinj
        omega)]
    · rfl
  · intro r t hne
    unfold JLSRAM.resolve at hne
    dsimp only at hne
    split at hne
    · rename_i idx dv heq1 heq2
      by_cases hc : r.chipSelect.value = some (bsLow 1) ∧
          r.writeEnable.value = some (bsLow 1) ∧ idx < r.mem.data.length
      · exact ⟨hc.1, hc.2.1, idx, heq1, hc.2.2⟩
      · rw [if_neg hc] at hne
        exact absurd rfl hne
    · exact absurd rfl hne

/-- C8 witness: the out-of-range write part at the concrete RAM `ramEx`,
whose address bus selects word 2 of a 2-word memory with chip select and
write enable both low. -/
theorem ram_out_of_range_write_dropped_witness :
    (ramEx.resolve 2).mem = ramEx.mem :=
  ram_out_of_range_write_dropped.1 ramEx 2 2 rfl (by decide)

/-- C10: the Extend constructor succeeds exactly when the input bus has
width 1; given a constructed element, a null input leaves the output bus
unchanged, and a width-1 input value (necessarily reading as unsigned 0 or
1, so the error branch of resolve is unreachable) drives the output to all
zeros when the input bit is 0 and to all ones when it is 1. -/
theorem extend_width_one_and_resolve (inp out : CircuitBus) (t : Int) :
    ((Extend.make inp out).isOk ↔ inp.width = 1) ∧
    (∀ e, Extend.make inp out = .ok e →
      (inp.value = none → e.resolve t = .ok e) ∧
      (∀ bit : Bool, inp.value = some [bit] →
        ∃ e2, e.resolve t = .ok e2 ∧
          e2.output.value = some (List.replicate out.width bit))) := by
  constructor
  · unfold Extend.make
    by_cases h : inp.width = 1
    · rw [if_neg (by omega)]
      simp [Except.isOk, Except.toBool, h]
    · rw [if_pos (by omega)]
      simp [Except.isOk, Except.toBool, h]
  · intro e he
    unfold Extend.make at he
    by_cases h : inp.width = 1
    · rw [if_neg (by omega)] at he
      cases he
      constructor
      · intro hnone
        unfold Extend.resolve
        rw [hnone]
      · intro bit hbit
        cases bit
        · refine ⟨{ input := inp, output := out.setValue (some (bsLow out.width)) t },
            ?_, rfl⟩
          unfold Extend.resolve
          rw [hbit]
          rfl
        · refine ⟨{ input := inp, output := out.setValue (some (bsHigh out.width)) t },
            ?_, rfl⟩
          unfold Extend.resolve
          rw [hbit]
          rfl
    · rw [if_pos (by omega)] at he
      exact absurd he (by simp)

/-- C10 witness: constructing an Extend element on a 1-bit input bus holding
1 and a 6-bit output bus, then resolving, drives the output to "111111". -/
theorem extend_width_one_and_resolve_witness :
    ∃ e2, (Extend.resolve ⟨extInp, extOut⟩ 0) = .ok e2 ∧
      e2.output.value = some (List.replicate extOut.width true) :=
  ((extend_width_one_and_resolve extInp extOut 0).2 ⟨extInp, extOut⟩ rfl).2
    true rfl

end Willow
